import Mathlib

/-!
Shallow embedding of the CPM.cu linear-projection module
(`src/model/linear.cuh`) and of the Marlin quantized-GEMM template
instantiation table, together with theorems settling the specification
claims about them.

Device buffers are modelled as total functions `Nat → ℚ` from flat byte/element
indices to values; matrices are stored in the same layouts the source uses
(column-major for the BLAS calls, row-major for the logical activations).
External collaborators of this file (the vendor BLAS GEMM, the memory arena,
and the elementwise helpers) live outside the given sources and are modelled
from the specification; each such definition says so in its doc comment.
-/

namespace CPMcu

/-! ## Memory arena (external collaborator) -/

/-- Scratch alignment boundary of the arena, in bytes (the spec's example
value). -/
def scratchAlignment : Nat := 256

/-- Round `n` up to the next multiple of the scratch alignment boundary. -/
def alignUp (n : Nat) : Nat :=
  ((n + scratchAlignment - 1) / scratchAlignment) * scratchAlignment

/-- Modelled from the spec: `Memory::allocate` (the arena's
`allocate_scratch`), whose definition is outside the given sources
(`utils.cuh`).  Pure address arithmetic: it binds the caller's pointer slot to
`scratch_base + current_offset` (returned here as the first component, the
byte offset of the bound pointer from the scratch base) and returns
`next_offset = current_offset + byte_size` rounded to the alignment
boundary (second component).  No device memory traffic occurs. -/
def Memory.allocate (offset byteSize : Nat) : Nat × Nat :=
  (offset, alignUp (offset + byteSize))

/-- Replay a sequence of scratch allocations: fold `Memory.allocate` over a
list of byte sizes starting from `start`, collecting the bound offsets in
order and threading the running offset. -/
def Memory.replay (sizes : List Nat) (start : Nat) : List Nat × Nat :=
  match sizes with
  | [] => ([], start)
  | sz :: rest =>
      let r := Memory.allocate start sz
      let rec_ := Memory.replay rest r.2
      (r.1 :: rec_.1, rec_.2)

/-! ## Dense GEMM path (external collaborator) -/

/-- Entry `(i, l)` of `op(A)` for a column-major buffer `buf` with leading
dimension `ld`: with `op = true` (transpose) the stored matrix is read at
`(l, i)`, i.e. flat index `l + i * ld`; with `op = false` it is read at
`(i, l)`, i.e. flat index `i + l * ld`. -/
def opEntry (op : Bool) (buf : Nat → ℚ) (ld i l : Nat) : ℚ :=
  if op then buf (l + i * ld) else buf (i + l * ld)

/-- Modelled from the spec: the vendor dense-matmul call
(`cublasGemmEx` / `denseMatMul`), treated as an opaque column-major BLAS GEMM:
within the `m × n` output footprint (element `(i, j)` at flat index
`i + j * ldc`) the result is `alpha * (op(A) · op(B))(i, j) + beta * C(i, j)`;
outside the footprint the output buffer is untouched. -/
def gemmEx (opA opB : Bool) (m n k : Nat) (alpha : ℚ)
    (A : Nat → ℚ) (lda : Nat) (B : Nat → ℚ) (ldb : Nat)
    (beta : ℚ) (C : Nat → ℚ) (ldc : Nat) : Nat → ℚ :=
  fun p =>
    let i := p % ldc
    let j := p / ldc
    if i < m ∧ j < n then
      alpha * (∑ l : Fin k, opEntry opA A lda i l * opEntry opB B ldb l j)
        + beta * C p
    else C p

/-- The free function `linear` of `linear.cuh`: dispatches to the vendor GEMM
with `alpha = 1`, `beta = inplace ? 1 : 0`; in the `transposed` branch the
weight is passed with `op = T` and leading dimension `dim_in`, otherwise with
`op = N` and leading dimension `dim_out`; the input activation is always
`op = N` with leading dimension `dim_in`, and the output has leading
dimension `dim_out`. -/
def linear (num_tokens dim_in dim_out : Nat) (input weight : Nat → ℚ)
    (output : Nat → ℚ) (transposed : Bool) (inplace : Bool) : Nat → ℚ :=
  let alpha : ℚ := 1
  let beta : ℚ := if inplace then 1 else 0
  if transposed then
    gemmEx true false dim_out num_tokens dim_in alpha
      weight dim_in input dim_in beta output dim_out
  else
    gemmEx false false dim_out num_tokens dim_in alpha
      weight dim_out input dim_in beta output dim_out

/-! ## Elementwise helpers and projection modules -/

/-- Modelled from the spec: the elementwise helper `batched_add`
(`elementwise.cuh`, outside the given sources) broadcast-adds the vector `b`
(`dim` elements) to every row of the row-major `num_tokens × dim` buffer `a`;
outside that footprint the buffer is untouched. -/
def batched_add (num_tokens dim : Nat) (a : Nat → ℚ) (b : Nat → ℚ) : Nat → ℚ :=
  fun p => if p < num_tokens * dim then a p + b (p % dim) else a p

/-- Modelled from the spec: the elementwise helper `elementwise_scale`
(`elementwise.cuh`, outside the given sources) writes `scale * input[p]` for
every flat index `p` of the `num_tokens × dim` footprint into a destination
buffer (a fresh scratch temporary, modelled as zero outside the footprint);
the input buffer itself is not written. -/
def elementwise_scale (num_tokens dim : Nat) (input : Nat → ℚ) (scale : ℚ) : Nat → ℚ :=
  fun p => if p < num_tokens * dim then scale * input p else 0

/-- Configuration fields of the `Linear<T>` struct of `linear.cuh`
(the device pointers `output`, `weight`, `bias` are modelled separately as
explicit buffer arguments and as `LinearState`). -/
structure Linear where
  dim_in : Nat
  dim_out : Nat
  transposed : Bool
  has_bias : Bool
  deriving DecidableEq

/-- `Linear::init_output_ptr`: one arena scratch allocation of
`num_tokens * dim_out * sizeof(T)` bytes; returns the bound output offset and
the next running offset.  `sizeofT` abstracts `sizeof(T)`. -/
def Linear.init_output_ptr (cfg : Linear) (sizeofT num_tokens offset : Nat) : Nat × Nat :=
  Memory.allocate offset (num_tokens * cfg.dim_out * sizeofT)

/-- `Linear::prefill`: runs `linear` on the target buffer (the caller's `tgt`,
defaulting in the source to the module's own output buffer), then, when
`has_bias` is set, broadcast-adds the bias vector over the result.  Sequential
function composition models the FIFO ordering of the two operations enqueued
on the same stream. -/
def Linear.prefill (cfg : Linear) (num_tokens : Nat)
    (input weight bias tgt : Nat → ℚ) (inplace : Bool) : Nat → ℚ :=
  let out := linear num_tokens cfg.dim_in cfg.dim_out input weight tgt
    cfg.transposed inplace
  if cfg.has_bias then batched_add num_tokens cfg.dim_out out bias else out

/-- The `LMHead<T>` struct of `linear.cuh`: a `Linear` plus the scalar
`head_scale` (a float in the source, modelled as a rational). -/
structure LMHead extends Linear where
  head_scale : ℚ

/-- `LMHead::init_output_ptr`: first the inherited `Linear::init_output_ptr`
allocation for the output buffer, then a second scratch allocation of
`num_tokens * dim_in * sizeof(T)` bytes for the private temporary
`tmp_hidden_size`.  Returns the two bound offsets (output, temporary) and the
final running offset. -/
def LMHead.init_output_ptr (m : LMHead) (sizeofT num_tokens offset : Nat) :
    (Nat × Nat) × Nat :=
  let r1 := Linear.init_output_ptr m.toLinear sizeofT num_tokens offset
  let r2 := Memory.allocate r1.2 (num_tokens * m.dim_in * sizeofT)
  ((r1.1, r2.1), r2.2)

/-- `LMHead::prefill`: rescales the input into the private temporary with
`elementwise_scale`, then invokes the inherited `Linear::prefill` on that
temporary. -/
def LMHead.prefill (m : LMHead) (num_tokens : Nat)
    (input weight bias tgt : Nat → ℚ) (inplace : Bool) : Nat → ℚ :=
  let tmp := elementwise_scale num_tokens m.dim_in input m.head_scale
  Linear.prefill m.toLinear num_tokens tmp weight bias tgt inplace

/-! ## Weight loading -/

/-- `sub.isPrefixOf` at some position of `s`: the Boolean substring search of
`std::string::find(sub) != npos`. -/
def containsFrom (sub : List Char) : List Char → Bool
  | [] => sub.isEmpty
  | c :: rest => sub.isPrefixOf (c :: rest) || containsFrom sub rest

/-- `containsSub s sub` holds when `sub` occurs as a contiguous substring of
`s` (the test `s.find(sub) != std::string::npos` of the source). -/
def containsSub (s sub : String) : Bool := containsFrom sub.toList s.toList

/-- The name tag searched first by `Linear::load_to_storage`. -/
def weightTag : String := "weight"

/-- The name tag searched second by `Linear::load_to_storage`. -/
def biasTag : String := "bias"

/-- The device-side storage of one `Linear` module: the weight buffer and the
bias buffer, each `none` while unallocated and `some contents` once
allocated. -/
structure LinearState where
  weightStore : Option (List ℚ)
  biasStore : Option (List ℚ)
  deriving DecidableEq

/-- `Linear::init_weight_ptr`: allocates the weight buffer with
`dim_in * dim_out` elements always, and the bias buffer with `dim_out`
elements only when `has_bias` is set (contents start as the allocator gives
them, modelled as zeros; only the allocation sizes matter below). -/
def Linear.init_weight_ptr (cfg : Linear) : LinearState :=
  { weightStore := some (List.replicate (cfg.dim_in * cfg.dim_out) 0)
    biasStore :=
      if cfg.has_bias then some (List.replicate cfg.dim_out 0) else none }

/-- Which device buffer a host-to-device copy targets. -/
inductive CopyDest
  | weightDest
  | biasDest
  deriving DecidableEq

/-- Outcome of `Linear::load_to_storage`: either a host-to-device copy of
`count` elements into the named destination, yielding the post-copy storage,
or the `std::invalid_argument` throw, which leaves the storage unchanged. -/
inductive LoadResult
  | copied (dest : CopyDest) (count : Nat) (st : LinearState)
  | unsupported (msg : String) (st : LinearState)
  deriving DecidableEq

/-- `Linear::load_to_storage`: if the name contains `"weight"`, `cudaMemcpy`
of `dim_in * dim_out` elements from the host buffer into the weight pointer;
else if it contains `"bias"`, `cudaMemcpy` of `dim_out` elements into the
bias pointer; else `throw std::invalid_argument("Unsupported name " + name)`.
The host buffer is modelled as an element-indexed function and the copy as
replacing the target store's contents with its first elements; no branch
inspects `has_bias`. -/
def Linear.load_to_storage (cfg : Linear) (st : LinearState) (name : String)
    (host : Nat → ℚ) : LoadResult :=
  if containsSub name weightTag then
    .copied .weightDest (cfg.dim_in * cfg.dim_out)
      { st with
        weightStore := some ((List.range (cfg.dim_in * cfg.dim_out)).map host) }
  else if containsSub name biasTag then
    .copied .biasDest cfg.dim_out
      { st with biasStore := some ((List.range cfg.dim_out).map host) }
  else
    .unsupported ("Unsupported name " ++ name) st

/-! ## Marlin kernel instantiation table -/

/-- One explicit template instantiation of `marlin::Marlin` from the
instantiation unit: the varying template arguments
`⟨block_size, split, warp_m, warp_n, pack_size, qbits, group_blocks⟩`.
`qbits` is the bit width of the quantization type argument (`vllm::kU4` is 4,
`vllm::kU8` is 8); the compute type (`__nv_bfloat16`) and the two trailing
Boolean arguments (`false, true`) are the same for every instantiation and
are omitted. -/
structure MarlinVariant where
  block_size : Nat
  split : Nat
  warp_m : Nat
  warp_n : Nat
  pack_size : Nat
  qbits : Nat
  group_blocks : Int
  deriving DecidableEq

/-- `MARLIN_INST_SPLIT`: one instantiation per group-blocks value
`-1, 2, 4, 8`. -/
def instSplit (qbits block_size split warp_m warp_n pack_size : Nat) :
    List MarlinVariant :=
  [⟨block_size, split, warp_m, warp_n, pack_size, qbits, -1⟩,
   ⟨block_size, split, warp_m, warp_n, pack_size, qbits, 2⟩,
   ⟨block_size, split, warp_m, warp_n, pack_size, qbits, 4⟩,
   ⟨block_size, split, warp_m, warp_n, pack_size, qbits, 8⟩]

/-- `MARLIN_INST_ALL_SPLITS`: split factors 1, 2, 3, 4. -/
def instAllSplits (qbits block_size warp_m warp_n pack_size : Nat) :
    List MarlinVariant :=
  instSplit qbits block_size 1 warp_m warp_n pack_size ++
  instSplit qbits block_size 2 warp_m warp_n pack_size ++
  instSplit qbits block_size 3 warp_m warp_n pack_size ++
  instSplit qbits block_size 4 warp_m warp_n pack_size

/-- `MARLIN_INST_QTYPE`: the 4-bit (`vllm::kU4`) and 8-bit (`vllm::kU8`)
quantization types, each passed the same `pack_size` argument. -/
def instQtype (block_size warp_m warp_n pack_size : Nat) : List MarlinVariant :=
  instAllSplits 4 block_size warp_m warp_n pack_size ++
  instAllSplits 8 block_size warp_m warp_n pack_size

/-- The full instantiation table: the four `MARLIN_INST_CONFIG` lines
`(256, 16, 4, 4)`, `(256, 8, 8, 4)`, `(128, 8, 4, 4)`, `(128, 4, 8, 4)`
(each `MARLIN_INST_CONFIG` forwards to `MARLIN_INST_QTYPE` at
`__nv_bfloat16`). -/
def marlinInstantiations : List MarlinVariant :=
  instQtype 256 16 4 4 ++ instQtype 256 8 8 4 ++
  instQtype 128 8 4 4 ++ instQtype 128 4 8 4

/-- The `(block_size, warp_m, warp_n, split, qbits, group_blocks)` keys of
the instantiated family. -/
def marlinKeys : List (Nat × Nat × Nat × Nat × Nat × Int) :=
  marlinInstantiations.map fun v =>
    (v.block_size, v.warp_m, v.warp_n, v.split, v.qbits, v.group_blocks)

/-- The cross product claimed by the spec: block/warp shapes
`(256,(16,4)), (256,(8,8)), (128,(8,4)), (128,(4,8))` × split factors
`1, 2, 3, 4` × quantization bit widths `4, 8` × group parameters
`-1, 2, 4, 8`. -/
def claimedKeys : List (Nat × Nat × Nat × Nat × Nat × Int) :=
  ([(256, 16, 4), (256, 8, 8), (128, 8, 4), (128, 4, 8)] :
      List (Nat × Nat × Nat)).flatMap fun s =>
    ([1, 2, 3, 4] : List Nat).flatMap fun sp =>
      ([4, 8] : List Nat).flatMap fun q =>
        ([-1, 2, 4, 8] : List Int).map fun g =>
          (s.1, s.2.1, s.2.2, sp, q, g)

/-! ## Helper lemmas -/

/-- A row-major entry `(t, j)` of an `n × d` matrix lies inside the flat
footprint `n * d`. -/
theorem row_entry_lt {j d t n : Nat} (hj : j < d) (ht : t < n) :
    j + t * d < n * d := by
  have h1 : j + t * d < (t + 1) * d := by
    rw [Nat.add_mul, Nat.one_mul, Nat.add_comm]
    exact Nat.add_lt_add_left hj _
  exact Nat.lt_of_lt_of_le h1 (Nat.mul_le_mul_right d ht)

/-- Rounding up to the alignment boundary never decreases an offset. -/
theorem le_alignUp (n : Nat) : n ≤ alignUp n := by
  unfold alignUp scratchAlignment
  omega

/-- Entry-level characterization of `linear` (shared by the claim theorems):
at the row-major output entry `(t, o)` the result is the `(t, o)` entry of
`A · Wᵀ` (transposed) or `A · W` (non-transposed), plus the old output
content when `inplace` is set. -/
theorem linear_entry_eq (num_tokens dim_in dim_out : Nat)
    (input weight output : Nat → ℚ) (transposed inplace : Bool)
    (t o : Nat) (ht : t < num_tokens) (ho : o < dim_out) :
    linear num_tokens dim_in dim_out input weight output transposed inplace
        (o + t * dim_out) =
      (if transposed then
        ∑ l : Fin dim_in, input ((l : Nat) + t * dim_in) * weight ((l : Nat) + o * dim_in)
       else
        ∑ l : Fin dim_in, input ((l : Nat) + t * dim_in) * weight (o + (l : Nat) * dim_out))
      + (if inplace then output (o + t * dim_out) else 0) := by
  have hdo : 0 < dim_out := Nat.lt_of_le_of_lt (Nat.zero_le o) ho
  have hmod : (o + t * dim_out) % dim_out = o := by
    rw [Nat.add_mul_mod_self_right]
    exact Nat.mod_eq_of_lt ho
  have hdiv : (o + t * dim_out) / dim_out = t := by
    rw [Nat.add_mul_div_right _ _ hdo, Nat.div_eq_of_lt ho, Nat.zero_add]
  have hsum : ∀ F G : Fin dim_in → ℚ, (∑ l, F l * G l) = ∑ l, G l * F l :=
    fun F G => Finset.sum_congr rfl fun l _ => mul_comm _ _
  unfold linear gemmEx
  cases transposed <;> cases inplace <;>
    · simp only [Bool.false_eq_true, if_true, if_false, reduceIte, hmod, hdiv]
      rw [if_pos ⟨ho, ht⟩]
      simp only [opEntry, Bool.false_eq_true, if_true, if_false, reduceIte,
        one_mul, zero_mul, add_zero]
      simp [hsum]

/-! ## Claim theorems -/

/-- C1: for every `num_tokens`, `dim_in`, `dim_out`, row-major input `A`
(`num_tokens × dim_in`) and weight `W`, the `linear` operation writes, at the
row-major output entry `(t, o)`, the value `(A · Wᵀ)(t, o)` when `transposed`
is true (`W` laid out `dim_out × dim_in` row-major, entry `(o, l)` at flat
index `l + o * dim_in`) and `(A · W)(t, o)` when it is false (`W` laid out
`dim_in × dim_out` row-major, entry `(l, o)` at flat index `o + l * dim_out`);
when the accumulate (`inplace`) flag is true the pre-existing output content
is added, and when it is false the output is overwritten. -/
theorem linear_project_spec (num_tokens dim_in dim_out : Nat)
    (input weight output : Nat → ℚ) (transposed inplace : Bool)
    (t o : Nat) (ht : t < num_tokens) (ho : o < dim_out) :
    linear num_tokens dim_in dim_out input weight output transposed inplace
        (o + t * dim_out) =
      (if transposed then
        ∑ l : Fin dim_in, input ((l : Nat) + t * dim_in) * weight ((l : Nat) + o * dim_in)
       else
        ∑ l : Fin dim_in, input ((l : Nat) + t * dim_in) * weight (o + (l : Nat) * dim_out))
      + (if inplace then output (o + t * dim_out) else 0) :=
  linear_entry_eq num_tokens dim_in dim_out input weight output transposed
    inplace t o ht ho

/-- Witness for C1 at a concrete input: one token, `dim_in = 2`,
`dim_out = 1`, input row `(0, 1)`, transposed weight row `(1, 2)`, existing
output content `7`, accumulate on: the written entry is
`0·1 + 1·2 + 7 = 9`. -/
theorem linear_project_spec_witness :
    (0 : Nat) < 1 ∧
    linear 1 2 1 (fun p => (p : ℚ)) (fun p => ((p : ℚ) + 1)) (fun _ => 7)
      true true 0 = 9 := by
  constructor
  · decide
  · have h := linear_project_spec 1 2 1 (fun p => (p : ℚ))
      (fun p => ((p : ℚ) + 1)) (fun _ => 7) true true 0 0
      (by decide) (by decide)
    simp only [Nat.zero_add, Nat.mul_one, Nat.zero_mul, Nat.add_zero] at h
    rw [h]
    simp [Fin.sum_univ_succ]
    norm_num

/-- C3: for every projection with `has_bias` true (and the transposed weight
layout of `A · Wᵀ`), `prefill` with `inplace = false` writes, at every
row-major output entry `(t, o)`, the value `(A · Wᵀ)(t, o) + bias[o]`: the
bias vector is broadcast-added to every output row strictly after the matrix
multiply (the `batched_add` pass is applied to the completed `linear`
result). -/
theorem prefill_bias_spec (cfg : Linear) (num_tokens : Nat)
    (input weight bias out0 : Nat → ℚ) (t o : Nat)
    (hbias : cfg.has_bias = true) (htr : cfg.transposed = true)
    (ht : t < num_tokens) (ho : o < cfg.dim_out) :
    Linear.prefill cfg num_tokens input weight bias out0 false
        (o + t * cfg.dim_out) =
      (∑ l : Fin cfg.dim_in,
        input ((l : Nat) + t * cfg.dim_in) * weight ((l : Nat) + o * cfg.dim_in))
        + bias o := by
  have hmod : (o + t * cfg.dim_out) % cfg.dim_out = o := by
    rw [Nat.add_mul_mod_self_right]
    exact Nat.mod_eq_of_lt ho
  have hp : o + t * cfg.dim_out < num_tokens * cfg.dim_out := row_entry_lt ho ht
  have hlin := linear_entry_eq num_tokens cfg.dim_in cfg.dim_out input weight
    out0 cfg.transposed false t o ht ho
  rw [htr] at hlin
  unfold Linear.prefill batched_add
  rw [hbias]
  simp only [if_true, reduceIte]
  rw [if_pos hp, hmod, htr, hlin]
  simp

/-- Witness for C3 at a concrete input: `dim_in = 2`, `dim_out = 1`, one
token, input row `(0, 1)`, transposed weight row `(1, 2)`, bias `10`,
discarded old output `99`: the written entry is `0·1 + 1·2 + 10 = 12`. -/
theorem prefill_bias_spec_witness :
    Linear.prefill ⟨2, 1, true, true⟩ 1 (fun p => (p : ℚ))
      (fun p => ((p : ℚ) + 1)) (fun _ => 10) (fun _ => 99) false 0 = 12 := by
  have h := prefill_bias_spec ⟨2, 1, true, true⟩ 1 (fun p => (p : ℚ))
    (fun p => ((p : ℚ) + 1)) (fun _ => 10) (fun _ => 99) 0 0 rfl rfl
    (by decide) (by decide)
  simp only [Nat.zero_mul, Nat.add_zero] at h
  rw [h]
  simp [Fin.sum_univ_succ]
  norm_num

/-- C4: the scratch allocation operation binds the output pointer slot to the
current offset (from the scratch base), returns
`next_offset = current_offset + byte_size` rounded up to the alignment
boundary, and is a pure, deterministic address computation: replaying the
same sequence of allocation sizes from the same starting offset yields the
same bound offsets and the same final offset. -/
theorem allocate_scratch_spec (offset byteSize start₁ start₂ : Nat)
    (sizes₁ sizes₂ : List Nat) (hs : sizes₁ = sizes₂) (h0 : start₁ = start₂) :
    (Memory.allocate offset byteSize).1 = offset ∧
    (Memory.allocate offset byteSize).2 = alignUp (offset + byteSize) ∧
    Memory.replay sizes₁ start₁ = Memory.replay sizes₂ start₂ := by
  subst hs
  subst h0
  exact ⟨rfl, rfl, rfl⟩

/-- Witness for C4 at a concrete input: allocating 300 bytes at offset 100
binds the slot at offset 100 and returns the 256-aligned next offset 512;
replaying the size list `[40, 70]` from 0 is self-consistent. -/
theorem allocate_scratch_spec_witness :
    (Memory.allocate 100 300).1 = 100 ∧
    (Memory.allocate 100 300).2 = 512 ∧
    Memory.replay [40, 70] 0 = Memory.replay [40, 70] 0 := by
  have h := allocate_scratch_spec 100 300 0 0 [40, 70] [40, 70] rfl rfl
  refine ⟨h.1, ?_, h.2.2⟩
  rw [h.2.1]
  rfl

/-- C5: `LMHead::prefill` equals the wrapped `Linear::prefill` applied to the
elementwise-scaled input, and the private temporary it builds holds
`head_scale * input` at every row-major entry `(t, j)` of its
`num_tokens × dim_in` footprint (the input buffer is a read-only argument of
the scaling pass). -/
theorem lmhead_prefill_spec (m : LMHead) (num_tokens : Nat)
    (input weight bias tgt : Nat → ℚ) (inplace : Bool) (t j : Nat)
    (ht : t < num_tokens) (hj : j < m.dim_in) :
    LMHead.prefill m num_tokens input weight bias tgt inplace =
      Linear.prefill m.toLinear num_tokens
        (elementwise_scale num_tokens m.dim_in input m.head_scale)
        weight bias tgt inplace ∧
    elementwise_scale num_tokens m.dim_in input m.head_scale (j + t * m.dim_in)
        = m.head_scale * input (j + t * m.dim_in) := by
  constructor
  · rfl
  · unfold elementwise_scale
    rw [if_pos (row_entry_lt hj ht)]

/-- Witness for C5 at a concrete input: head scale 3, `dim_in = 2`, one
token: the head prefill coincides with the wrapped prefill on the scaled
input, and the temporary's entry `(0, 1)` is `3 * 1 = 3`. -/
theorem lmhead_prefill_spec_witness :
    LMHead.prefill ⟨⟨2, 1, true, false⟩, 3⟩ 1 (fun p => (p : ℚ))
        (fun p => (p : ℚ)) (fun _ => 0) (fun _ => 0) false =
      Linear.prefill ⟨2, 1, true, false⟩ 1
        (elementwise_scale 1 2 (fun p => (p : ℚ)) 3) (fun p => (p : ℚ))
        (fun _ => 0) (fun _ => 0) false ∧
    elementwise_scale 1 2 (fun p => (p : ℚ)) 3 1 = 3 := by
  have h := lmhead_prefill_spec ⟨⟨2, 1, true, false⟩, 3⟩ 1 (fun p => (p : ℚ))
    (fun p => (p : ℚ)) (fun _ => 0) (fun _ => 0) false 0 1
    (by decide) (by decide)
  refine ⟨h.1, ?_⟩
  have h2 := h.2
  norm_num at h2
  exact h2

/-- C8: the head module's allocation sequence binds its output buffer
(`num_tokens * dim_out * sizeof(T)` bytes, starting at the initial offset)
and its private temporary (`num_tokens * dim_in * sizeof(T)` bytes) to
disjoint byte ranges — the temporary starts no earlier than the end of the
output range — and the returned offset is at least the starting offset plus
the sum of both allocation sizes. -/
theorem lmhead_scratch_disjoint (m : LMHead) (sizeofT num_tokens offset : Nat) :
    (LMHead.init_output_ptr m sizeofT num_tokens offset).1.1 = offset ∧
    offset + num_tokens * m.dim_out * sizeofT ≤
      (LMHead.init_output_ptr m sizeofT num_tokens offset).1.2 ∧
    offset + num_tokens * m.dim_out * sizeofT + num_tokens * m.dim_in * sizeofT ≤
      (LMHead.init_output_ptr m sizeofT num_tokens offset).2 := by
  have h1 := le_alignUp (offset + num_tokens * m.dim_out * sizeofT)
  have h2 := le_alignUp
    (alignUp (offset + num_tokens * m.dim_out * sizeofT)
      + num_tokens * m.dim_in * sizeofT)
  unfold LMHead.init_output_ptr Linear.init_output_ptr Memory.allocate
  refine ⟨rfl, ?_, ?_⟩ <;> simp only <;> omega

/-- C2: for every name passed to `load_to_storage`: a name containing
`"weight"` copies `dim_in * dim_out` host elements into the weight storage;
otherwise a name containing `"bias"` copies `dim_out` host elements into the
bias storage; a name containing neither fails synchronously with the
unsupported-name error and leaves the storage unchanged. -/
theorem load_to_storage_spec (cfg : Linear) (st : LinearState) (name : String)
    (host : Nat → ℚ) :
    (containsSub name weightTag = true →
      Linear.load_to_storage cfg st name host =
        .copied .weightDest (cfg.dim_in * cfg.dim_out)
          { st with
            weightStore :=
              some ((List.range (cfg.dim_in * cfg.dim_out)).map host) }) ∧
    (containsSub name weightTag = false → containsSub name biasTag = true →
      Linear.load_to_storage cfg st name host =
        .copied .biasDest cfg.dim_out
          { st with biasStore := some ((List.range cfg.dim_out).map host) }) ∧
    (containsSub name weightTag = false → containsSub name biasTag = false →
      Linear.load_to_storage cfg st name host =
        .unsupported ("Unsupported name " ++ name) st) := by
  unfold Linear.load_to_storage
  refine ⟨fun hw => by simp [hw], fun hw hb => by simp [hw, hb],
    fun hw hb => by simp [hw, hb]⟩

/-- Witness for C2 at concrete inputs (`dim_in = 1`, `dim_out = 2`): the name
`attn.weight` routes 2 elements to the weight storage, `attn.bias` routes 2
elements to the bias storage, and `scale` fails with the unsupported-name
error, leaving the storage unchanged. -/
theorem load_to_storage_spec_witness :
    containsSub ("attn.weight") weightTag = true ∧
    containsSub ("attn.bias") weightTag = false ∧
    containsSub ("attn.bias") biasTag = true ∧
    containsSub ("scale") weightTag = false ∧
    containsSub ("scale") biasTag = false ∧
    Linear.load_to_storage ⟨1, 2, true, true⟩ ⟨some [0, 0], some [0, 0]⟩
        ("attn.weight") (fun _ => 1) =
      .copied .weightDest 2 ⟨some [1, 1], some [0, 0]⟩ ∧
    Linear.load_to_storage ⟨1, 2, true, true⟩ ⟨some [0, 0], some [0, 0]⟩
        ("attn.bias") (fun _ => 1) =
      .copied .biasDest 2 ⟨some [0, 0], some [1, 1]⟩ ∧
    Linear.load_to_storage ⟨1, 2, true, true⟩ ⟨some [0, 0], some [0, 0]⟩
        ("scale") (fun _ => 1) =
      .unsupported ("Unsupported name scale") ⟨some [0, 0], some [0, 0]⟩ := by
  refine ⟨by decide, by decide, by decide, by decide, by decide, ?_, ?_, ?_⟩
  · have h := load_to_storage_spec ⟨1, 2, true, true⟩ ⟨some [0, 0], some [0, 0]⟩
      ("attn.weight") (fun _ => 1)
    rw [h.1 (by decide)]
    decide
  · have h := load_to_storage_spec ⟨1, 2, true, true⟩ ⟨some [0, 0], some [0, 0]⟩
      ("attn.bias") (fun _ => 1)
    rw [h.2.1 (by decide) (by decide)]
    decide
  · have h := load_to_storage_spec ⟨1, 2, true, true⟩ ⟨some [0, 0], some [0, 0]⟩
      ("scale") (fun _ => 1)
    rw [h.2.2 (by decide) (by decide)]
    decide

/-- C9: for every name containing the substring `"weight"` — whether or not
it also contains `"bias"` (e.g. `bias_weight`) — `load_to_storage` routes the
copy to the weight storage (`dim_in * dim_out` elements) and leaves the bias
storage unchanged, because the `"weight"` test comes first in the if/else
chain. -/
theorem load_weight_precedence (cfg : Linear) (st : LinearState) (name : String)
    (host : Nat → ℚ) (hw : containsSub name weightTag = true) :
    Linear.load_to_storage cfg st name host =
      .copied .weightDest (cfg.dim_in * cfg.dim_out)
        { st with
          weightStore :=
            some ((List.range (cfg.dim_in * cfg.dim_out)).map host) } ∧
    ({ st with
       weightStore :=
         some ((List.range (cfg.dim_in * cfg.dim_out)).map host) } :
      LinearState).biasStore = st.biasStore := by
  unfold Linear.load_to_storage
  exact ⟨by simp [hw], rfl⟩

/-- Witness for C9 at a concrete input: the name `bias_weight` contains both
substrings, yet the copy goes to the weight storage and the bias storage
(holding `[7]`) is untouched. -/
theorem load_weight_precedence_witness :
    containsSub ("bias_weight") weightTag = true ∧
    containsSub ("bias_weight") biasTag = true ∧
    Linear.load_to_storage ⟨1, 1, true, false⟩ ⟨some [0], some [7]⟩
        ("bias_weight") (fun _ => 5) =
      .copied .weightDest 1 ⟨some [5], some [7]⟩ := by
  refine ⟨by decide, by decide, ?_⟩
  have h := load_weight_precedence ⟨1, 1, true, false⟩ ⟨some [0], some [7]⟩
    ("bias_weight") (fun _ => 5) (by decide)
  rw [h.1]
  decide

/-- C10: the `"bias"` branch of `load_to_storage` copies `dim_out` elements
through the bias pointer for every storage state and every value of
`has_bias` (the branch performs no `has_bias` check), while
`init_weight_ptr` allocates the bias buffer — a defined target of `dim_out`
elements — exactly when `has_bias` holds; so the bias copy's target is
well-defined exactly under the precondition `has_bias = true`. -/
theorem load_bias_requires_alloc (cfg : Linear) (name : String) (host : Nat → ℚ)
    (hw : containsSub name weightTag = false)
    (hb : containsSub name biasTag = true) :
    (∀ b : Bool, ∀ st : LinearState,
      Linear.load_to_storage { cfg with has_bias := b } st name host =
        .copied .biasDest cfg.dim_out
          { st with biasStore := some ((List.range cfg.dim_out).map host) }) ∧
    ((Linear.init_weight_ptr cfg).biasStore.isSome = cfg.has_bias) ∧
    (cfg.has_bias = true →
      (Linear.init_weight_ptr cfg).biasStore =
        some (List.replicate cfg.dim_out 0) ∧
      (List.replicate cfg.dim_out (0 : ℚ)).length = cfg.dim_out) := by
  refine ⟨fun b st => ?_, ?_, fun h => ?_⟩
  · unfold Linear.load_to_storage
    simp [hw, hb]
  · unfold Linear.init_weight_ptr
    cases hcb : cfg.has_bias <;> simp [hcb]
  · unfold Linear.init_weight_ptr
    simp [h]

/-- Witness for C10 at a concrete input: with the name `o.bias` the copy is
routed to the bias target even for a module built with `has_bias = false`
and an unallocated bias buffer, while a module built with `has_bias = true`
has the bias buffer allocated. -/
theorem load_bias_requires_alloc_witness :
    containsSub ("o.bias") weightTag = false ∧
    containsSub ("o.bias") biasTag = true ∧
    Linear.load_to_storage ⟨1, 2, true, false⟩ ⟨some [0, 0], none⟩ ("o.bias")
        (fun _ => 9) = .copied .biasDest 2 ⟨some [0, 0], some [9, 9]⟩ ∧
    (Linear.init_weight_ptr ⟨1, 2, true, false⟩).biasStore.isSome = false ∧
    (Linear.init_weight_ptr ⟨1, 2, true, true⟩).biasStore.isSome = true := by
  have h1 := load_bias_requires_alloc ⟨1, 2, true, false⟩ ("o.bias")
    (fun _ => 9) (by decide) (by decide)
  have h2 := load_bias_requires_alloc ⟨1, 2, true, true⟩ ("o.bias")
    (fun _ => 9) (by decide) (by decide)
  refine ⟨by decide, by decide, ?_, ?_, ?_⟩
  · rw [h1.1 false ⟨some [0, 0], none⟩]
    decide
  · rw [h1.2.1]
  · rw [h2.2.1]

set_option maxRecDepth 8000 in
/-- C6: the instantiated Marlin kernel family covers exactly the cross
product of the block/warp shapes `(256,(16,4)), (256,(8,8)), (128,(8,4)),
(128,(4,8))`, the split factors `1, 2, 3, 4`, the quantization bit widths
`4` and `8`, and the group parameters `-1, 2, 4, 8`: the key set of the
instantiation table equals the claimed cross product. -/
theorem marlin_family_exact : marlinKeys.toFinset = claimedKeys.toFinset := by
  decide

/-- Counterexample for C7: the two instantiated variants with block size 256,
split 1, warp tiling `(16, 4)` and group parameter `-1` that differ only in
the quantization type (4-bit vs 8-bit) carry the same pack-size template
argument `4`, refuting the claim that the pack size differs for every such
pair. -/
theorem marlin_pack_size_counterexample :
    (⟨256, 1, 16, 4, 4, 4, -1⟩ : MarlinVariant) ∈ marlinInstantiations ∧
    (⟨256, 1, 16, 4, 4, 8, -1⟩ : MarlinVariant) ∈ marlinInstantiations ∧
    (⟨256, 1, 16, 4, 4, 4, -1⟩ : MarlinVariant).qbits ≠
      (⟨256, 1, 16, 4, 4, 8, -1⟩ : MarlinVariant).qbits ∧
    (⟨256, 1, 16, 4, 4, 4, -1⟩ : MarlinVariant).pack_size =
      (⟨256, 1, 16, 4, 4, 8, -1⟩ : MarlinVariant).pack_size := by
  decide

/-- C7 (amended): the 4-bit and 8-bit quantized kernel variants are
instantiated as separate template specializations (distinct quantization-type
arguments), but every instantiated variant — of either bit width — carries
the same pack-size template argument, 4. -/
theorem marlin_pack_size_amended :
    (marlinInstantiations.all fun v => v.pack_size == 4) = true ∧
    (marlinInstantiations.any fun v => v.qbits == 4) = true ∧
    (marlinInstantiations.any fun v => v.qbits == 8) = true := by
  decide

end CPMcu
